import Mathlib

/- Shallow embedding of the pods feed aggregator: the RSS data model, the
feed parser projection, the per-source refresh, the registry-wide update,
and the HTML index snapshot, together with lock-automaton models of the
concurrency discipline around the single registry mutex. -/

/-- An item element as it occurs in a raw RSS feed document.  Feed items may
carry a publication date; the decoded `RssItem` struct declares no such
field, so XML decoding drops it. -/
structure XmlItem where
  title : String
  subtitle : String
  enclosureURL : String
  pubDate : Option Nat
  deriving DecidableEq

/-- A raw RSS feed document: channel title plus the ordered item list. -/
structure XmlFeed where
  title : String
  items : List XmlItem
  deriving DecidableEq

/-- Embeds `RssEnclosure`: the metadata + url of the item. -/
structure RssEnclosure where
  url : String
  deriving DecidableEq

/-- Embeds `RssItem`: an individual item in the channel, exactly the fields
the Go struct declares (title, enclosure, itunes subtitle); no date. -/
structure RssItem where
  title : String
  enclosure : RssEnclosure
  subtitle : String
  deriving DecidableEq

/-- Embeds `RssChannel`. -/
structure RssChannel where
  title : String
  items : List RssItem
  deriving DecidableEq

/-- Embeds `RssFeed`, the root of the feed. -/
structure RssFeed where
  channel : RssChannel
  deriving DecidableEq

/-- XML decoding of one item: only the fields declared on `RssItem` are
kept; the publication date present in the raw document is dropped. -/
def decodeItem (x : XmlItem) : RssItem :=
  ⟨x.title, ⟨x.enclosureURL⟩, x.subtitle⟩

/-- XML decoding of a whole feed document. -/
def decodeFeed (x : XmlFeed) : RssFeed :=
  ⟨⟨x.title, x.items.map decodeItem⟩⟩

/-- Embeds `Episode`: title, itunes subtitle, enclosure url. -/
structure Episode where
  name : String
  subtitle : String
  url : String
  deriving DecidableEq

/-- The observable outcome of the three fallible steps in `RssParser.URLs`:
`http.Get`, `ioutil.ReadAll`, `xml.Unmarshal`; on success the decoded feed. -/
inductive FetchOutcome where
  | getErr (msg : String)
  | readErr (msg : String)
  | unmarshalErr (msg : String)
  | ok (rss : RssFeed)
  deriving DecidableEq

/-- Whether the fetch/read/decode pipeline failed. -/
def FetchOutcome.isFailure : FetchOutcome → Bool
  | .ok _ => false
  | _ => true

/-- The projection `Episode{it.Title, it.Subtitle, it.Enclosure.URL}` from
the loop body of `RssParser.URLs`. -/
def mkEpisode (it : RssItem) : Episode :=
  ⟨it.title, it.subtitle, it.enclosure.url⟩

/-- Zero value of `RssItem`, used as the out-of-range default for indexed
access in the embedding of the Go slice loop. -/
def dfltItem : RssItem := ⟨"", ⟨""⟩, ""⟩

namespace RssParser

/-- Embeds `RssParser.URLs`: on any of the three failures it logs and
returns nil; on success it allocates a slice of length `min(len(items),10)`
and fills position `i` with the projection of item `i`. -/
def URLs : FetchOutcome → List Episode
  | .getErr _ => []
  | .readErr _ => []
  | .unmarshalErr _ => []
  | .ok rss =>
    let l := if 10 < rss.channel.items.length then 10 else rss.channel.items.length
    (List.range l).map fun i => mkEpisode (rss.channel.items.getD i dfltItem)

end RssParser

/-- The comparison used by `Pod.Update`: `sort.Slice` with strict less
`eps[i].name > eps[j].name` sorts into non-increasing title order, i.e. the
resulting list is sorted with respect to this relation. -/
def epGE (a b : Episode) : Prop := b.name ≤ a.name

instance : DecidableRel epGE := fun a b =>
  decidable_of_iff (b.name.toList ≤ a.name.toList) (by rw [epGE, String.le_iff_toList_le])

instance : IsTotal Episode epGE := ⟨fun a b => le_total b.name a.name⟩

instance : IsTrans Episode epGE := ⟨fun _ _ _ h1 h2 => le_trans h2 h1⟩

/-- The sort performed by `Pod.Update` on the parser's result. -/
def sortEps (l : List Episode) : List Episode := List.insertionSort epGE l

/-- Embeds `Pod`: a named source with its last-refresh time and current
episode list.  The parser strategy field is represented by passing the
parser's outcome to `Pod.Update` explicitly. -/
structure Pod where
  name : String
  lastUpdate : Nat
  eps : List Episode
  deriving DecidableEq

/-- Embeds `Pod.Update`: run the parser once, stamp the current time, sort
the returned episodes by descending title and store both. -/
def Pod.Update (p : Pod) (o : FetchOutcome) (now : Nat) : Pod :=
  { p with lastUpdate := now, eps := sortEps (RssParser.URLs o) }

/-- One registry entry refreshed: the loop body of `update`. -/
def updEntry (out : String → FetchOutcome) (now : Nat) (kv : String × Pod) : String × Pod :=
  (kv.1, kv.2.Update (out kv.1) now)

/-- Embeds the registry-wide `update`: refresh every pod of the registry
(each with its own parser outcome) under the single mutex; the mutex itself
is modelled by the lock automata below. -/
def update (reg : List (String × Pod)) (out : String → FetchOutcome) (now : Nat) :
    List (String × Pod) :=
  reg.map (updEntry out now)

/-- Embeds `TemplateEpisode`: the only two fields the template sees. -/
structure TemplateEpisode where
  Title : String
  URL : String
  deriving DecidableEq

/-- Embeds `TemplatePod`. -/
structure TemplatePod where
  Name : String
  LastUpdate : String
  Episodes : List TemplateEpisode
  deriving DecidableEq

/-- Stand-in for `time.Format("2006-01-02 15:04")`: a deterministic pure
rendering of the timestamp. -/
def formatTime (t : Nat) : String := toString t

/-- The projection `TemplateEpisode{Title: e.name, URL: e.url}` from the
inner loop of `index`. -/
def mkTemplateEpisode (e : Episode) : TemplateEpisode := ⟨e.name, e.url⟩

/-- One `TemplatePod` record as built by the `index` loop body. -/
def mkTemplatePod (kv : String × Pod) : TemplatePod :=
  ⟨kv.1, formatTime kv.2.lastUpdate, kv.2.eps.map mkTemplateEpisode⟩

/-- Embeds the data-building part of the `index` handler: under the mutex,
append one record per registry entry to `data`. -/
def index (reg : List (String × Pod)) : List TemplatePod :=
  reg.foldl (fun data kv => data ++ [mkTemplatePod kv]) []

/-- Boolean comparison "a is at least as recent as b": newer publish date
first where both dates are present, ties and missing dates fall back to
descending title.  Dates are supplied externally (keyed by title) because
stored episodes carry none. -/
def descRecencyB (d : String → Option Nat) (a b : Episode) : Bool :=
  match d a.name, d b.name with
  | some da, some db => decide (db < da) || (decide (db = da) && decide (b.name ≤ a.name))
  | _, _ => decide (b.name ≤ a.name)

/-- A list is sorted by descending recency when every adjacent pair is. -/
def sortedByDescRecency (d : String → Option Nat) : List Episode → Bool
  | [] => true
  | [_] => true
  | a :: b :: t => descRecencyB d a b && sortedByDescRecency d (b :: t)

/-- Zero value of a registry entry, used as indexed-access default. -/
def dfltEntry : String × Pod := ("", ⟨"", 0, []⟩)

/-- The two threads of control contending for the registry mutex in the
reader/writer model: the refresh engine and the `index` handler. -/
inductive RWTid where
  | writer
  | reader
  deriving DecidableEq

/-- Fixed parameters of one refresh cycle: the registry at cycle start,
each source's parser outcome (keyed by registry name), and the wall-clock
time stamped during the cycle. -/
structure RWConfig where
  reg0 : List (String × Pod)
  out : String → FetchOutcome
  now : Nat

/-- Interleaving state of the refresh engine (`update`) running against the
`index` reader, sharing the single mutex `m`. -/
structure RWState where
  lock : Option RWTid
  reg : List (String × Pod)
  wpc : Nat
  rpc : Nat
  snap : Option (List TemplatePod)

/-- Refreshing entry `i` of the registry in place: one iteration of the
`update` loop. -/
def listUpd (out : String → FetchOutcome) (now : Nat) (reg : List (String × Pod)) (i : Nat) :
    List (String × Pod) :=
  reg.set i (updEntry out now (reg.getD i dfltEntry))

/-- Small-step interleaving semantics of one `update` call racing one
`index` call.  The writer acquires `m`, refreshes the pods one at a time,
and releases; the reader acquires `m`, builds its snapshot, and releases.
Acquisition blocks while the mutex is held. -/
inductive RWStep (cfg : RWConfig) : RWState → RWState → Prop where
  | wAcquire (s : RWState) : s.lock = none → s.wpc = 0 →
      RWStep cfg s { s with lock := some RWTid.writer, wpc := 1 }
  | wWork (s : RWState) : s.lock = some RWTid.writer → 1 ≤ s.wpc → s.wpc ≤ cfg.reg0.length →
      RWStep cfg s { s with reg := listUpd cfg.out cfg.now s.reg (s.wpc - 1), wpc := s.wpc + 1 }
  | wRelease (s : RWState) : s.lock = some RWTid.writer → s.wpc = cfg.reg0.length + 1 →
      RWStep cfg s { s with lock := none, wpc := s.wpc + 1 }
  | rAcquire (s : RWState) : s.lock = none → s.rpc = 0 →
      RWStep cfg s { s with lock := some RWTid.reader, rpc := 1 }
  | rRead (s : RWState) : s.lock = some RWTid.reader → s.rpc = 1 →
      RWStep cfg s { s with snap := some (index s.reg), rpc := 2 }
  | rRelease (s : RWState) : s.lock = some RWTid.reader → s.rpc = 2 →
      RWStep cfg s { s with lock := none, rpc := 3 }

/-- Initial state: mutex free, registry as at cycle start, nothing read. -/
def RWInit (cfg : RWConfig) : RWState := ⟨none, cfg.reg0, 0, 0, none⟩

/-- States reachable by interleaving the writer and the reader. -/
def RWReachable (cfg : RWConfig) (s : RWState) : Prop :=
  Relation.ReflTransGen (RWStep cfg) (RWInit cfg) s

/-- The registry with its first `k` entries refreshed: the intermediate
registry contents after `k` iterations of the `update` loop. -/
def updateFirst (out : String → FetchOutcome) (now : Nat) : Nat → List (String × Pod) → List (String × Pod)
  | _, [] => []
  | 0, l => l
  | k + 1, kv :: t => updEntry out now kv :: updateFirst out now k t

/-- How many entries the writer has refreshed when its program counter is
`w` (registry size `n`). -/
def cnt (n w : Nat) : Nat := if w = 0 then 0 else min (w - 1) n

/-- Inductive invariant of the reader/writer interleaving: the mutex holder
matches the program counters, the registry contents are determined by the
writer's progress, and any snapshot taken is either the pre-refresh or the
post-refresh rendering. -/
def RWInv (cfg : RWConfig) (s : RWState) : Prop :=
  (s.lock = some RWTid.writer ↔ 1 ≤ s.wpc ∧ s.wpc ≤ cfg.reg0.length + 1) ∧
  (s.lock = some RWTid.reader ↔ s.rpc = 1 ∨ s.rpc = 2) ∧
  s.wpc ≤ cfg.reg0.length + 2 ∧
  s.reg = updateFirst cfg.out cfg.now (cnt cfg.reg0.length s.wpc) cfg.reg0 ∧
  ∀ v, s.snap = some v → v = index cfg.reg0 ∨ v = index (update cfg.reg0 cfg.out cfg.now)

/-- The two threads of control that can call `update`: the hourly `sched`
loop and the `/forceupdate` handler. -/
inductive UTid where
  | timer
  | manual
  deriving DecidableEq

/-- Interleaving state of two concurrent `update` callers sharing `m`. -/
structure WWState where
  lock : Option UTid
  reg : List (String × Pod)
  pc1 : Nat
  pc2 : Nat

/-- Small-step interleaving semantics of the scheduler's `update` call
(program counter `pc1`) racing the manual trigger's `update` call (`pc2`):
both run the same locked loop over the registry. -/
inductive WWStep (cfg : RWConfig) : WWState → WWState → Prop where
  | tAcquire (s : WWState) : s.lock = none → s.pc1 = 0 →
      WWStep cfg s { s with lock := some UTid.timer, pc1 := 1 }
  | tWork (s : WWState) : s.lock = some UTid.timer → 1 ≤ s.pc1 → s.pc1 ≤ cfg.reg0.length →
      WWStep cfg s { s with reg := listUpd cfg.out cfg.now s.reg (s.pc1 - 1), pc1 := s.pc1 + 1 }
  | tRelease (s : WWState) : s.lock = some UTid.timer → s.pc1 = cfg.reg0.length + 1 →
      WWStep cfg s { s with lock := none, pc1 := s.pc1 + 1 }
  | mAcquire (s : WWState) : s.lock = none → s.pc2 = 0 →
      WWStep cfg s { s with lock := some UTid.manual, pc2 := 1 }
  | mWork (s : WWState) : s.lock = some UTid.manual → 1 ≤ s.pc2 → s.pc2 ≤ cfg.reg0.length →
      WWStep cfg s { s with reg := listUpd cfg.out cfg.now s.reg (s.pc2 - 1), pc2 := s.pc2 + 1 }
  | mRelease (s : WWState) : s.lock = some UTid.manual → s.pc2 = cfg.reg0.length + 1 →
      WWStep cfg s { s with lock := none, pc2 := s.pc2 + 1 }

/-- Initial state for the two-updater model. -/
def WWInit (cfg : RWConfig) : WWState := ⟨none, cfg.reg0, 0, 0⟩

/-- States reachable by interleaving the two `update` callers. -/
def WWReachable (cfg : RWConfig) (s : WWState) : Prop :=
  Relation.ReflTransGen (WWStep cfg) (WWInit cfg) s

/-- A thread with program counter `pc` is inside the locked section of
`update` over a registry of size `n`. -/
def inUpdate (n pc : Nat) : Prop := 1 ≤ pc ∧ pc ≤ n + 1

/-- Inductive invariant of the two-updater model: the mutex holder matches
the program counters. -/
def WWInv (cfg : RWConfig) (s : WWState) : Prop :=
  (s.lock = some UTid.timer ↔ inUpdate cfg.reg0.length s.pc1) ∧
  (s.lock = some UTid.manual ↔ inUpdate cfg.reg0.length s.pc2)

/-- Concrete raw feed used to exhibit that publish dates present in a feed
document never influence the stored order: item "A" is dated strictly newer
than item "B". -/
def xmlFeedC1 : XmlFeed :=
  ⟨"c", [⟨"A", "", "u1", some 2⟩, ⟨"B", "", "u2", some 1⟩]⟩

/-- The publish dates of `xmlFeedC1`, keyed by title. -/
def dC1 : String → Option Nat :=
  fun t => if t = "A" then some 2 else if t = "B" then some 1 else none

/-- A concrete pod in its pre-refresh state. -/
def podC1 : Pod := ⟨"P", 0, []⟩

/-- Concrete decoded feed whose single item has an empty enclosure URL. -/
def feedC3 : RssFeed := ⟨⟨"c", [⟨"t", ⟨""⟩, "s"⟩]⟩⟩

/-- Concrete one-pod cycle configuration whose parser fails. -/
def cfgW : RWConfig := ⟨[("p", ⟨"P", 0, []⟩)], fun _ => FetchOutcome.getErr ("refused"), 1⟩

/-- The reader/writer state after the reader acquires the mutex first. -/
def rwS1 : RWState := { RWInit cfgW with lock := some RWTid.reader, rpc := 1 }

/-- The reader/writer state after the reader then takes its snapshot. -/
def rwS2 : RWState := { rwS1 with snap := some (index rwS1.reg), rpc := 2 }

/-- Concrete registry holding one source with an empty episode list and one
with a non-empty one. -/
def regC9 : List (String × Pod) :=
  [("empty", ⟨"E", 3, []⟩), ("full", ⟨"F", 4, [⟨"t", "s", "u"⟩]⟩)]

/-- A parser-outcome assignment under which every source fails. -/
def outFail : String → FetchOutcome := fun _ => FetchOutcome.getErr ("x")

/-- A parser-outcome assignment under which every source succeeds. -/
def outOk : String → FetchOutcome := fun _ => FetchOutcome.ok feedC3

/-- Outcomes of a cycle in which the source registered as "empty" suffers a
transport error while every other source succeeds. -/
def outMixed : String → FetchOutcome :=
  fun n => if n = "empty" then FetchOutcome.getErr ("x") else FetchOutcome.ok feedC3

/-- The indexed slice fill of `RssParser.URLs` is the map of the truncated
item list. -/
theorem range_map_getD_eq_take_map {α β : Type} (f : α → β) (d : α) :
    ∀ (k : Nat) (l : List α),
      (List.range (min k l.length)).map (fun i => f (l.getD i d)) = (l.take k).map f := by
  intro k l
  induction l generalizing k with
  | nil => simp
  | cons a t ih =>
    cases k with
    | zero => simp
    | succ k =>
      rw [List.length_cons, Nat.succ_min_succ, List.range_succ_eq_map]
      simp only [List.map_cons, List.map_map, List.getD_cons_zero, List.take_succ_cons,
        Function.comp_def, List.getD_cons_succ]
      rw [ih k]

/-- On a successful fetch, the parser output is exactly the projection of
the first ten feed items, in feed order. -/
theorem urls_ok_eq (rss : RssFeed) :
    RssParser.URLs (FetchOutcome.ok rss) = (rss.channel.items.take 10).map mkEpisode := by
  have h : (if 10 < rss.channel.items.length then 10 else rss.channel.items.length)
      = min 10 rss.channel.items.length := by split <;> omega
  show (List.range (if 10 < rss.channel.items.length then 10 else rss.channel.items.length)).map
      (fun i => mkEpisode (rss.channel.items.getD i dfltItem)) = _
  rw [h, range_map_getD_eq_take_map]

/-- On any of the three failure outcomes the parser returns the empty
list. -/
theorem urls_failure_nil (o : FetchOutcome) (h : o.isFailure = true) :
    RssParser.URLs o = [] := by
  cases o with
  | ok rss => simp [FetchOutcome.isFailure] at h
  | getErr m => rfl
  | readErr m => rfl
  | unmarshalErr m => rfl

/-- Claim C1 (counterexample): the stored episode list is not, in general,
sorted by descending recency.  Feed `xmlFeedC1` dates item "A" strictly
newer than item "B" (dates `dC1`), yet after `Pod.Update` the store holds
["B", "A"]: the sort compares titles only and the decoder drops the dates
before they ever reach an `Episode`. -/
theorem update_ignores_pub_dates :
    ((podC1.Update (FetchOutcome.ok (decodeFeed xmlFeedC1)) 5).eps).map (fun e => e.name)
        = ["B", "A"] ∧
    dC1 ("A") = some 2 ∧ dC1 ("B") = some 1 ∧
    sortedByDescRecency dC1 ((podC1.Update (FetchOutcome.ok (decodeFeed xmlFeedC1)) 5).eps)
        = false := by
  decide

/-- Claim C1 (amended): after `Pod.Update` the stored episode list is a
permutation of the parser's output sorted in non-increasing title order
(the total preorder `epGE`); publish dates are never decoded into episodes,
so they cannot influence the order. -/
theorem update_sorts_desc_title (p : Pod) (o : FetchOutcome) (now : Nat) :
    List.Sorted epGE (p.Update o now).eps ∧
    List.Perm (p.Update o now).eps (RssParser.URLs o) ∧
    ∀ x : XmlItem, decodeItem x = decodeItem ⟨x.title, x.subtitle, x.enclosureURL, none⟩ := by
  exact ⟨List.sorted_insertionSort epGE (RssParser.URLs o),
    List.perm_insertionSort epGE (RssParser.URLs o), fun x => rfl⟩

/-- Claim C2: after any refresh the stored episode list has length at most
ten, and on a successful fetch the parser truncates the feed's ordered item
list to its first ten items before projecting them into episodes. -/
theorem urls_truncate_ten (p : Pod) (o : FetchOutcome) (now : Nat) :
    ((p.Update o now).eps).length ≤ 10 ∧
    ∀ rss : RssFeed,
      RssParser.URLs (FetchOutcome.ok rss) = (rss.channel.items.take 10).map mkEpisode := by
  constructor
  · have hlen : ((p.Update o now).eps).length = (RssParser.URLs o).length :=
      List.length_insertionSort epGE (RssParser.URLs o)
    rw [hlen]
    cases o with
    | ok rss => rw [urls_ok_eq]; simp
    | getErr m => simp [RssParser.URLs]
    | readErr m => simp [RssParser.URLs]
    | unmarshalErr m => simp [RssParser.URLs]
  · exact urls_ok_eq

/-- Claim C3 (counterexample): an item whose enclosure URL is empty is not
dropped: on `feedC3`, whose only item has an empty enclosure URL, the
parser returns exactly one episode and that episode's media URL is
empty. -/
theorem urls_keep_empty_url_episode :
    RssParser.URLs (FetchOutcome.ok feedC3) = [⟨"t", "s", ""⟩] ∧
    ((RssParser.URLs (FetchOutcome.ok feedC3)).getD 0 ⟨"x", "x", "x"⟩).url = "" := by
  decide

/-- Claim C3 (amended): every item among the first ten of a decoded feed is
projected into the returned episode list unconditionally — items whose
media-URL extraction yields an empty string are included with that empty
URL rather than dropped. -/
theorem urls_keep_all_first_ten (rss : RssFeed) (it : RssItem)
    (h : it ∈ rss.channel.items.take 10) :
    mkEpisode it ∈ RssParser.URLs (FetchOutcome.ok rss) := by
  rw [urls_ok_eq]
  exact List.mem_map_of_mem _ h

/-- Witness for the amended C3 at a concrete feed: the empty-URL item of
`feedC3` is kept. -/
theorem urls_keep_all_first_ten_witness :
    mkEpisode ⟨"t", ⟨""⟩, "s"⟩ ∈ RssParser.URLs (FetchOutcome.ok feedC3) :=
  urls_keep_all_first_ten feedC3 ⟨"t", ⟨""⟩, "s"⟩ (by decide)

/-- Claim C4: every parser failure (transport error, unreadable body, or
malformed document) yields the empty episode list, and the refresh engine
consequently stores an empty list for that cycle; the embedding is a total
function, so no failure propagates to the caller. -/
theorem urls_nil_on_failure (o : FetchOutcome) (h : o.isFailure = true) :
    RssParser.URLs o = [] ∧ ∀ (p : Pod) (now : Nat), (p.Update o now).eps = [] := by
  have h0 := urls_failure_nil o h
  exact ⟨h0, fun p now => by simp [Pod.Update, h0, sortEps, List.insertionSort]⟩

/-- Witness for C4 at a concrete transport error. -/
theorem urls_nil_on_failure_witness :
    RssParser.URLs (FetchOutcome.getErr ("refused")) = [] :=
  (urls_nil_on_failure (FetchOutcome.getErr ("refused")) rfl).1

/-- The `i`-th entry of a mapped list, under the list's length. -/
theorem getD_map_of_lt {α β : Type} (f : α → β) (l : List α) (i : Nat) (h : i < l.length)
    (d : α) (d' : β) : (l.map f).getD i d' = f (l.getD i d) := by
  induction l generalizing i with
  | nil => simp at h
  | cons a t ih =>
    cases i with
    | zero => simp
    | succ j => simpa using ih j (by simpa using h)

/-- Claim C5: in a cycle where the parser of source `i` fails, source `i`
ends the cycle with an empty (not stale) episode list and the cycle's
timestamp, while every source `j` of the registry is still refreshed in
that same cycle (its entry becomes exactly its own `updEntry`) and its
refreshed entry depends only on its own parser outcome: replacing the
outcome assignment by any other one that agrees at `j`'s name — in
particular one under which source `i` succeeds — leaves `j`'s result
unchanged. -/
theorem update_failure_isolated (reg : List (String × Pod)) (out : String → FetchOutcome)
    (now : Nat) (i : Nat) (hi : i < reg.length)
    (hfail : (out (reg.getD i dfltEntry).1).isFailure = true) :
    ((update reg out now).getD i dfltEntry).2.eps = [] ∧
    ((update reg out now).getD i dfltEntry).2.lastUpdate = now ∧
    ∀ j, j < reg.length →
      (update reg out now).getD j dfltEntry = updEntry out now (reg.getD j dfltEntry) ∧
      ∀ out' : String → FetchOutcome,
        out' (reg.getD j dfltEntry).1 = out (reg.getD j dfltEntry).1 →
          (update reg out' now).getD j dfltEntry = (update reg out now).getD j dfltEntry := by
  have h1 : (update reg out now).getD i dfltEntry = updEntry out now (reg.getD i dfltEntry) :=
    getD_map_of_lt _ reg i hi dfltEntry dfltEntry
  refine ⟨?_, ?_, ?_⟩
  · rw [h1]
    have h0 := urls_failure_nil _ hfail
    simp only [updEntry, Pod.Update, h0]
    rfl
  · rw [h1]
    rfl
  · intro j hj
    have hj1 : (update reg out now).getD j dfltEntry = updEntry out now (reg.getD j dfltEntry) :=
      getD_map_of_lt _ reg j hj dfltEntry dfltEntry
    refine ⟨hj1, ?_⟩
    intro out' hagree
    have hj2 : (update reg out' now).getD j dfltEntry = updEntry out' now (reg.getD j dfltEntry) :=
      getD_map_of_lt _ reg j hj dfltEntry dfltEntry
    rw [hj1, hj2]
    simp only [updEntry, hagree]

/-- Witness for C5: in the two-source registry `regC9`, under `outMixed`
the source "empty" fails while "full" succeeds; the failing source ends
with an empty list and the fresh timestamp, and the surviving source's
refreshed entry is identical to what it is under `outOk`, where no source
fails at all. -/
theorem update_failure_isolated_witness :
    ((update regC9 outMixed 7).getD 0 dfltEntry).2.eps = [] ∧
    ((update regC9 outMixed 7).getD 0 dfltEntry).2.lastUpdate = 7 ∧
    (update regC9 outOk 7).getD 1 dfltEntry = (update regC9 outMixed 7).getD 1 dfltEntry := by
  obtain ⟨h1, h2, h3⟩ := update_failure_isolated regC9 outMixed 7 0 (by decide) (by decide)
  exact ⟨h1, h2, (h3 1 (by decide)).2 outOk (by decide)⟩

/-- Claim C8: refresh is idempotent — refreshing again with the same parser
outcome stores an identical episode list (same content, same order), and
the second refresh changes nothing but the timestamp. -/
theorem pod_update_idempotent (p : Pod) (o : FetchOutcome) (t1 t2 : Nat) :
    ((p.Update o t1).Update o t2).eps = (p.Update o t1).eps ∧
    (p.Update o t1).Update o t2 = { p.Update o t1 with lastUpdate := t2 } :=
  ⟨rfl, rfl⟩

/-- `foldl` with singleton appends builds the mapped list after the
accumulator. -/
theorem foldl_append_singleton {α β : Type} (f : α → β) :
    ∀ (l : List α) (acc : List β),
      l.foldl (fun d kv => d ++ [f kv]) acc = acc ++ l.map f := by
  intro l
  induction l with
  | nil => intro acc; simp
  | cons a t ih => intro acc; simp [ih]

/-- The `index` snapshot is one record per registry entry, in registry
order. -/
theorem index_eq_map (reg : List (String × Pod)) : index reg = reg.map mkTemplatePod := by
  simpa [index] using foldl_append_singleton mkTemplatePod reg []

/-- Claim C9: the snapshot export contains exactly one record per
registered source, each of shape name/formatted-timestamp/episode-list; a
source with an empty episode list yields a record with an empty episodes
list rather than being omitted. -/
theorem index_one_record_per_source (reg : List (String × Pod)) (kv : String × Pod)
    (h : kv ∈ reg) :
    (index reg).length = reg.length ∧
    index reg = reg.map mkTemplatePod ∧
    mkTemplatePod kv ∈ index reg ∧
    (kv.2.eps = [] →
      (⟨kv.1, formatTime kv.2.lastUpdate, []⟩ : TemplatePod) ∈ index reg) := by
  have hm := index_eq_map reg
  refine ⟨by rw [hm]; simp, hm, by rw [hm]; exact List.mem_map_of_mem _ h, ?_⟩
  intro he
  have hrec : mkTemplatePod kv = ⟨kv.1, formatTime kv.2.lastUpdate, []⟩ := by
    simp [mkTemplatePod, he]
  rw [hm, ← hrec]
  exact List.mem_map_of_mem _ h

/-- Witness for C9: the empty-list source of `regC9` still yields a record,
with an empty episodes list. -/
theorem index_one_record_per_source_witness :
    (⟨"empty", formatTime 3, []⟩ : TemplatePod) ∈ index regC9 :=
  (index_one_record_per_source regC9 ("empty", ⟨"E", 3, []⟩) (by decide)).2.2.2 rfl

/-- Claim C10: the snapshot export drops the subtitle: each exported
episode record is exactly the episode's title and media URL, so two
episodes differing only in subtitle export identically, and a pod's
exported records are the projection of its episode list. -/
theorem index_drops_subtitle (kv : String × Pod) (e e' : Episode)
    (h1 : e.name = e'.name) (h2 : e.url = e'.url) :
    mkTemplateEpisode e = ⟨e.name, e.url⟩ ∧
    mkTemplateEpisode e = mkTemplateEpisode e' ∧
    (mkTemplatePod kv).Episodes = kv.2.eps.map mkTemplateEpisode := by
  refine ⟨rfl, ?_, rfl⟩
  simp [mkTemplateEpisode, h1, h2]

/-- Witness for C10: two episodes with equal title and URL but different
subtitles export to the same record. -/
theorem index_drops_subtitle_witness :
    mkTemplateEpisode ⟨"t", "s1", "u"⟩ = mkTemplateEpisode ⟨"t", "s2", "u"⟩ :=
  (index_drops_subtitle dfltEntry ⟨"t", "s1", "u"⟩ ⟨"t", "s2", "u"⟩ rfl rfl).2.1

/-- Refreshing no entries changes nothing. -/
theorem uf_zero (out : String → FetchOutcome) (now : Nat) (l : List (String × Pod)) :
    updateFirst out now 0 l = l := by
  cases l <;> rfl

/-- Refreshing at least as many entries as the registry holds is exactly
the registry-wide `update`. -/
theorem uf_full (out : String → FetchOutcome) (now : Nat) :
    ∀ (l : List (String × Pod)) (k : Nat), l.length ≤ k →
      updateFirst out now k l = update l out now := by
  intro l
  induction l with
  | nil => intro k hk; cases k <;> rfl
  | cons a t ih =>
    intro k hk
    cases k with
    | zero => simp at hk
    | succ k =>
      have ht : t.length ≤ k := by simpa using hk
      show updEntry out now a :: updateFirst out now k t = update (a :: t) out now
      rw [ih k ht]
      rfl

/-- Refreshing entry `k` in a registry whose first `k` entries are already
refreshed refreshes the first `k + 1`. -/
theorem uf_set (out : String → FetchOutcome) (now : Nat) :
    ∀ (l : List (String × Pod)) (k : Nat), k < l.length →
      listUpd out now (updateFirst out now k l) k = updateFirst out now (k + 1) l := by
  intro l
  induction l with
  | nil => intro k hk; simp at hk
  | cons a t ih =>
    intro k hk
    cases k with
    | zero =>
      show listUpd out now (a :: t) 0 = updEntry out now a :: updateFirst out now 0 t
      simp [listUpd, uf_zero]
    | succ j =>
      have hj : j < t.length := by simpa using hk
      show listUpd out now (updEntry out now a :: updateFirst out now j t) (j + 1)
          = updEntry out now a :: updateFirst out now (j + 1) t
      simp only [listUpd, List.set_cons_succ, List.getD_cons_succ]
      rw [← listUpd, ih j hj]

/-- The invariant holds initially. -/
theorem rw_inv_init (cfg : RWConfig) : RWInv cfg (RWInit cfg) := by
  refine ⟨by simp [RWInit], by simp [RWInit], by simp [RWInit], ?_, by simp [RWInit]⟩
  simp [RWInit, cnt, uf_zero]


/-- The invariant is preserved by every interleaving step. -/
theorem rw_inv_step {cfg : RWConfig} {s s' : RWState} (h : RWStep cfg s s')
    (hs : RWInv cfg s) : RWInv cfg s' := by
  obtain ⟨hW, hR, hwpc, hreg, hsnap⟩ := hs
  cases h with
  | wAcquire hl hw =>
    refine ⟨by simp, ?_, by simp, ?_, hsnap⟩
    · rw [hl] at hR
      simp at hR ⊢
      tauto
    · show s.reg = updateFirst cfg.out cfg.now (cnt cfg.reg0.length 1) cfg.reg0
      have hc : cnt cfg.reg0.length 1 = cnt cfg.reg0.length s.wpc := by
        rw [hw]; unfold cnt; simp
      rw [hc]
      exact hreg
  | wWork hl h1 h2 =>
    refine ⟨by simp [hl]; omega, hR, by simp; omega, ?_, hsnap⟩
    show listUpd cfg.out cfg.now s.reg (s.wpc - 1)
        = updateFirst cfg.out cfg.now (cnt cfg.reg0.length (s.wpc + 1)) cfg.reg0
    have hc : cnt cfg.reg0.length s.wpc = s.wpc - 1 := by
      unfold cnt; split <;> omega
    have hc' : cnt cfg.reg0.length (s.wpc + 1) = s.wpc - 1 + 1 := by
      unfold cnt; split <;> omega
    rw [hreg, hc, hc', uf_set cfg.out cfg.now cfg.reg0 (s.wpc - 1) (by omega)]
  | wRelease hl hw =>
    refine ⟨by simp; omega, ?_, by simp; omega, ?_, hsnap⟩
    · rw [hl] at hR
      simp at hR ⊢
      tauto
    · show s.reg = updateFirst cfg.out cfg.now (cnt cfg.reg0.length (s.wpc + 1)) cfg.reg0
      have hc1 : cnt cfg.reg0.length (s.wpc + 1) = cfg.reg0.length := by
        rw [hw]; unfold cnt; split <;> omega
      have hc2 : cnt cfg.reg0.length s.wpc = cfg.reg0.length := by
        rw [hw]; unfold cnt; split <;> omega
      rw [hc2] at hreg
      rw [hc1]
      exact hreg
  | rAcquire hl hr =>
    refine ⟨?_, by simp, hwpc, hreg, hsnap⟩
    rw [hl] at hW
    simp at hW ⊢
    tauto
  | rRead hl hr =>
    refine ⟨hW, by simp [hl], hwpc, hreg, ?_⟩
    intro v hv
    have hv' : v = index s.reg := by
      injection hv with hh
      exact hh.symm
    have hnw : s.lock ≠ some RWTid.writer := by rw [hl]; simp
    have hno : ¬(1 ≤ s.wpc ∧ s.wpc ≤ cfg.reg0.length + 1) := fun hc => hnw (hW.mpr hc)
    rcases Nat.eq_zero_or_pos s.wpc with h0 | hpos
    · left
      rw [hv', hreg, h0]
      simp [cnt, uf_zero]
    · right
      have hw2 : s.wpc = cfg.reg0.length + 2 := by
        rcases Nat.lt_or_ge (cfg.reg0.length + 1) s.wpc with hgt | hle
        · omega
        · exact absurd ⟨hpos, hle⟩ hno
      rw [hv', hreg, hw2]
      have hc : cnt cfg.reg0.length (cfg.reg0.length + 2) = cfg.reg0.length := by
        unfold cnt; split <;> omega
      rw [hc, uf_full cfg.out cfg.now cfg.reg0 cfg.reg0.length (le_refl _)]
  | rRelease hl hr =>
    refine ⟨?_, by simp, hwpc, hreg, hsnap⟩
    rw [hl] at hW
    simp at hW ⊢
    tauto

/-- Every reachable state of the reader/writer interleaving satisfies the
invariant. -/
theorem rw_inv_reachable (cfg : RWConfig) (s : RWState) (h : RWReachable cfg s) :
    RWInv cfg s := by
  have h' : Relation.ReflTransGen (RWStep cfg) (RWInit cfg) s := h
  clear h
  induction h' with
  | refl => exact rw_inv_init cfg
  | tail hab hbc ih => exact rw_inv_step hbc ih

/-- Claim C6: in any interleaving of one registry refresh with one `index`
reader under the shared mutex, a snapshot taken by the reader is either the
pre-refresh rendering or the post-refresh rendering of the registry — never
a mix, because the writer holds the mutex across the whole per-pod loop. -/
theorem reader_snapshot_consistent (cfg : RWConfig) (s : RWState) (h : RWReachable cfg s)
    (v : List TemplatePod) (hv : s.snap = some v) :
    v = index cfg.reg0 ∨ v = index (update cfg.reg0 cfg.out cfg.now) :=
  (rw_inv_reachable cfg s h).2.2.2.2 v hv

/-- The concrete two-step run in which the reader acquires the mutex first
and snapshots the pre-refresh registry. -/
theorem rwS2_reachable : RWReachable cfgW rwS2 :=
  Relation.ReflTransGen.tail
    (Relation.ReflTransGen.tail Relation.ReflTransGen.refl
      (RWStep.rAcquire (RWInit cfgW) rfl rfl))
    (RWStep.rRead rwS1 rfl rfl)

/-- Witness for C6 at the concrete run `rwS2`: the snapshot taken there is
one of the two consistent renderings. -/
theorem reader_snapshot_consistent_witness :
    index cfgW.reg0 = index cfgW.reg0 ∨
      index cfgW.reg0 = index (update cfgW.reg0 cfgW.out cfgW.now) :=
  reader_snapshot_consistent cfgW rwS2 rwS2_reachable (index cfgW.reg0) rfl

/-- The two-updater invariant holds initially. -/
theorem ww_inv_init (cfg : RWConfig) : WWInv cfg (WWInit cfg) := by
  constructor <;> simp [WWInit, inUpdate]

/-- The two-updater invariant is preserved by every interleaving step. -/
theorem ww_inv_step {cfg : RWConfig} {s s' : WWState} (h : WWStep cfg s s')
    (hs : WWInv cfg s) : WWInv cfg s' := by
  obtain ⟨hT, hM⟩ := hs
  cases h with
  | tAcquire hl hp =>
    refine ⟨by simp [inUpdate], ?_⟩
    rw [hl] at hM
    simp [inUpdate] at hM ⊢
    tauto
  | tWork hl h1 h2 =>
    refine ⟨?_, hM⟩
    rw [hl] at hT ⊢
    simp [inUpdate] at hT ⊢
    omega
  | tRelease hl hp =>
    refine ⟨?_, ?_⟩
    · simp [inUpdate]
      omega
    · rw [hl] at hM
      simp [inUpdate] at hM ⊢
      tauto
  | mAcquire hl hp =>
    refine ⟨?_, by simp [inUpdate]⟩
    rw [hl] at hT
    simp [inUpdate] at hT ⊢
    tauto
  | mWork hl h1 h2 =>
    refine ⟨hT, ?_⟩
    rw [hl] at hM ⊢
    simp [inUpdate] at hM ⊢
    omega
  | mRelease hl hp =>
    refine ⟨?_, ?_⟩
    · rw [hl] at hT
      simp [inUpdate] at hT ⊢
      tauto
    · simp [inUpdate]
      omega

/-- Every reachable state of the two-updater interleaving satisfies the
invariant. -/
theorem ww_inv_reachable (cfg : RWConfig) (s : WWState) (h : WWReachable cfg s) :
    WWInv cfg s := by
  have h' : Relation.ReflTransGen (WWStep cfg) (WWInit cfg) s := h
  clear h
  induction h' with
  | refl => exact ww_inv_init cfg
  | tail hab hbc ih => exact ww_inv_step hbc ih

/-- Claim C7: the scheduler's timed `update` call and the manual trigger's
`update` call enter the same locked loop, and in every reachable
interleaving at most one of them is inside it: a manual trigger issued
while a refresh runs blocks on the mutex and never runs concurrently with
it. -/
theorem updates_serialize (cfg : RWConfig) (s : WWState) (h : WWReachable cfg s) :
    ¬ (inUpdate cfg.reg0.length s.pc1 ∧ inUpdate cfg.reg0.length s.pc2) := by
  obtain ⟨hT, hM⟩ := ww_inv_reachable cfg s h
  rintro ⟨hp1, hp2⟩
  have e1 := hT.mpr hp1
  have e2 := hM.mpr hp2
  rw [e1] at e2
  simp at e2

/-- Witness for C7 at the initial state of a concrete configuration. -/
theorem updates_serialize_witness :
    ¬ (inUpdate cfgW.reg0.length (WWInit cfgW).pc1 ∧
        inUpdate cfgW.reg0.length (WWInit cfgW).pc2) :=
  updates_serialize cfgW (WWInit cfgW) Relation.ReflTransGen.refl
